import Mathlib

/-!
Verification of the ingestion-and-retrieval pipeline of the jason-rag
repository against its specification.

The development shallowly embeds the Python code of the repository:

* `src/backend/ingestion/chunker.py` (TextChunker),
* `src/backend/ingestion/scrapers/base.py`, `medium.py`, `github.py`,
  `resume.py` (the source adapters),
* `src/backend/ingestion/main.py` (the orchestrator wiring relevant here),
* `src/backend/config/database.py` (VectorDatabase).

Python dictionaries are modelled as association lists of `Val` values
(insertion-ordered, unique keys maintained by `dictSet`), Python `datetime`
objects as `PyDateTime` records with an optional `tzinfo`, and fallible or
possibly diverging code as `Option`-valued functions where `none` stands
for an exception or for nontermination (made precise at each definition).
External collaborators (the Qdrant backend, HTTP fetches, feed parsing,
PDF extraction) are modelled at their interface boundary: fetched raw data
is passed to the embedded functions as ordinary parameters, and the
backend is a record of the collection state.
-/

namespace JasonRag

/-! Python values and dictionaries. -/

/-- Model of a Python `datetime.datetime`: six calendar fields and an
optional `tzinfo` (minutes-east offset); `tzinfo = none` is a naive
datetime, `some z` an aware one (`some 0` is UTC). -/
structure PyDateTime where
  year : Nat
  month : Nat
  day : Nat
  hour : Nat
  minute : Nat
  second : Nat
  tzinfo : Option Int
deriving DecidableEq, Repr

/-- Model of the Python values stored in the document dictionaries of the
pipeline: strings, integers, datetimes, lists, nested dicts and `None`. -/
inductive Val where
  | str (s : String)
  | int (n : Int)
  | dt (d : PyDateTime)
  | vlist (xs : List Val)
  | vdict (entries : List (String × Val))
  | pynone

mutual

/-- Structural equality of Python values (Python `==` on these shapes). -/
def Val.beq : Val → Val → Bool
  | .str a, .str b => a == b
  | .int a, .int b => a == b
  | .dt a, .dt b => a == b
  | .vlist a, .vlist b => Val.beqList a b
  | .vdict a, .vdict b => Val.beqEntries a b
  | .pynone, .pynone => true
  | _, _ => false

/-- Elementwise equality of Python lists. -/
def Val.beqList : List Val → List Val → Bool
  | [], [] => true
  | a :: as1, b :: bs => Val.beq a b && Val.beqList as1 bs
  | _, _ => false

/-- Entrywise equality of Python dict entry lists. -/
def Val.beqEntries : List (String × Val) → List (String × Val) → Bool
  | [], [] => true
  | (k1, a) :: as1, (k2, b) :: bs => k1 == k2 && Val.beq a b && Val.beqEntries as1 bs
  | _, _ => false

end

/-- A Python dict with string keys, as an insertion-ordered association
list with unique keys (uniqueness is maintained by `dictSet`). -/
abbrev Dict := List (String × Val)

/-- Python `d[k]` / `d.get(k)` lookup: the value at the first (unique)
occurrence of the key. -/
def dictGet (d : Dict) (k : String) : Option Val :=
  (d.find? (fun kv => kv.fst == k)).map (fun kv => kv.snd)

/-- Python `d[k] = v`: update the existing entry in place, keeping its
position, or append a new entry at the end (Python dicts preserve
insertion order). -/
def dictSet : Dict → String → Val → Dict
  | [], k, v => [(k, v)]
  | (k1, v1) :: rest, k, v =>
    if k1 == k then (k, v) :: rest else (k1, v1) :: dictSet rest k v

/-- Python `d.get(k)`: like `dictGet` but a missing key yields `None`. -/
def pyDictGet (d : Dict) (k : String) : Val :=
  (dictGet d k).getD Val.pynone

/-- The Python exceptions relevant to the modelled code. -/
inductive PyErr where
  | typeError (msg : String)
  | keyError (key : String)
deriving DecidableEq, Repr

/-- Python keyword-argument binding: calling a function whose keyword
parameters are `params` with keyword arguments `kwargs` raises a
`TypeError` at the first keyword that is not a parameter. -/
def bindKwargs (params kwargs : List String) : Except PyErr Unit :=
  match kwargs.find? (fun k => !params.contains k) with
  | some k => .error (.typeError ("unexpected keyword argument " ++ k))
  | none => .ok ()

/-! The chunker (`src/backend/ingestion/chunker.py`). -/

/-- Helper of `pySplit`: walks the characters, accumulating the current
word reversed in `acc`, emitting a word at each whitespace run boundary. -/
def splitWordsAux : List Char → List Char → List String
  | [], acc => if acc.isEmpty then [] else [String.mk acc.reverse]
  | c :: cs, acc =>
    if c.isWhitespace then
      (if acc.isEmpty then [] else [String.mk acc.reverse]) ++ splitWordsAux cs []
    else splitWordsAux cs (c :: acc)

/-- Python `text.split()` with no separator: split on runs of whitespace,
discarding empty words (chunker.py line 15). -/
def pySplit (text : String) : List String :=
  splitWordsAux text.toList []

/-- Python `" ".join(words)` (chunker.py line 22). -/
def pyJoin : List String → String
  | [] => ""
  | [w] => w
  | w :: ws => w ++ " " ++ pyJoin ws

/-- Clamp one bound of a Python list slice: a negative index counts from
the end, a nonnegative one is capped at the length. -/
def pyIdx (len : Nat) (a : Int) : Nat :=
  if a < 0 then (a + len).toNat else min a.toNat len

/-- Python `xs[a:b]` list slicing. -/
def pySlice {α : Type} (xs : List α) (a b : Int) : List α :=
  (xs.take (pyIdx xs.length b)).drop (pyIdx xs.length a)

/-- The TextChunker state: `__init__` stores `chunk_size` and `overlap`
(chunker.py lines 9-11). Python integers are unbounded, hence `Int`. -/
structure TextChunker where
  chunk_size : Int
  overlap : Int
deriving DecidableEq, Repr

/-- Constructor `TextChunker(chunk_size, overlap)` (chunker.py lines 9-11):
the body only assigns the two attributes; it performs no validation and
has no raising path, so it always returns `ok`. -/
def TextChunker.init (chunk_size overlap : Int) : Except PyErr TextChunker :=
  .ok { chunk_size := chunk_size, overlap := overlap }

/-- The `while i < len(words)` loop of `chunk_text` (chunker.py lines
19-30), with the loop counter `i` as an `Int` and an explicit fuel:
each constructor step is one loop iteration (slice the window, append it
when the joined string is nonempty, break once `i + chunk_size` reaches
the word count, else advance `i` by `step`); `none` means the fuel ran
out before the loop exited. -/
def chunkLoop (words : List String) (chunk_size step : Int) : Nat → Int → Option (List String)
  | 0, _ => none
  | fuel+1, i =>
    if i < (words.length : Int) then
      let chunk := pyJoin (pySlice words i (i + chunk_size))
      if i + chunk_size ≥ (words.length : Int) then
        some (if chunk ≠ "" then [chunk] else [])
      else
        (chunkLoop words chunk_size step fuel (i + step)).map
          (fun rest => if chunk ≠ "" then chunk :: rest else rest)
    else
      some []

/-- Method `chunk_text` (chunker.py lines 13-32). The loop is run with
fuel `words.length + 1`, which suffices for every terminating execution
of the Python loop (whenever `step ≥ 1`, and in the degenerate cases of
no words or a window covering all words), so `none` models
nontermination of the Python code. -/
def TextChunker.chunk_text (c : TextChunker) (text : String) : Option (List String) :=
  let words := pySplit text
  chunkLoop words c.chunk_size (c.chunk_size - c.overlap) (words.length + 1) 0

/-- Helper `_create_chunked_document` (chunker.py lines 55-65): deep-copy
the parent dict and overwrite `content` and `chunk_index`. On the value
level a deep copy is the identity; the fresh-object aspect of
`copy.deepcopy` is captured by the heap model below. -/
def TextChunker.create_chunked_document (original_doc : Dict) (chunk_content : String)
    (chunk_index : Nat) : Dict :=
  dictSet (dictSet original_doc "content" (Val.str chunk_content))
    "chunk_index" (Val.int chunk_index)

/-- The per-document body of `chunk_documents` (chunker.py lines 46-51):
chunk `doc["content"]` and build one chunked document per window, with
`chunk_index` from `enumerate`. `none` models a `KeyError`/`TypeError`
on the content field or nontermination of `chunk_text`. -/
def TextChunker.chunkOneDocument (c : TextChunker) (doc : Dict) : Option (List Dict) :=
  match dictGet doc "content" with
  | some (Val.str s) =>
      (c.chunk_text s).map (fun chunks =>
        chunks.enum.map (fun p => TextChunker.create_chunked_document doc p.snd p.fst))
  | _ => none

/-- Method `chunk_documents` (chunker.py lines 34-53): the flat list of
chunked documents, per input document in order. -/
def TextChunker.chunk_documents (c : TextChunker) : List Dict → Option (List Dict)
  | [] => some []
  | doc :: rest =>
    match c.chunkOneDocument doc, TextChunker.chunk_documents c rest with
    | some chunks, some tail => some (chunks ++ tail)
    | _, _ => none

/-- Specification-side grouping of `chunk_documents`: the same chunks,
kept as one list per parent document. -/
def TextChunker.chunkPerDocument (c : TextChunker) : List Dict → Option (List (List Dict))
  | [] => some []
  | doc :: rest =>
    match c.chunkOneDocument doc, TextChunker.chunkPerDocument c rest with
    | some chunks, some tail => some (chunks :: tail)
    | _, _ => none

/-- Specification-side window decomposition: the windows of up to
`chunk_size` words that the chunker cuts, each window starting `step`
words after the previous one; the recursion stops at the window that
reaches the end of the word list. The `max step 1` guard only makes the
definition total; every theorem below instantiates it with `step ≥ 1`,
where `max step 1 = step`. -/
def windows (chunk_size step : Nat) : List String → List (List String)
  | [] => []
  | w :: ws =>
    if (w :: ws).length ≤ chunk_size then [w :: ws]
    else (w :: ws).take chunk_size :: windows chunk_size step ((w :: ws).drop (max step 1))
termination_by l => l.length
decreasing_by
  simp only [List.length_drop]
  have h1 : 1 ≤ max step 1 := Nat.le_max_right step 1
  simp only [List.length_cons]
  omega

/-! Heap model for object identity (claim C9). Python dicts are mutable
heap objects; `copy.deepcopy` in `_create_chunked_document` allocates a
fresh object per chunk. A heap is a list of dict cells addressed by
index; allocation appends a cell, and field mutation through a reference
rewrites exactly that cell. -/

/-- A heap of Python dict objects; the address of a cell is its index. -/
structure Heap where
  cells : List Dict

/-- Dereference a heap reference. -/
def Heap.read (h : Heap) (r : Nat) : Option Dict :=
  h.cells[r]?

/-- Python `obj[key] = v` through reference `r`: mutate that cell only. -/
def Heap.write (h : Heap) (r : Nat) (key : String) (v : Val) : Heap :=
  { cells := h.cells.set r (dictSet (h.cells.getD r []) key v) }

/-- Allocate one fresh cell per dict value, in order, returning the
references; this is the object-level effect of building the result list
of `chunk_documents`, where each element is a fresh `copy.deepcopy`. -/
def allocChunksFrom (h : Heap) : List Dict → List Nat × Heap
  | [] => ([], h)
  | d :: ds =>
    let res := allocChunksFrom { cells := h.cells ++ [d] } ds
    (h.cells.length :: res.1, res.2)

/-- Heap-level `chunk_documents`: the chunk values computed by
`TextChunker.chunk_documents`, each placed in a fresh heap cell. -/
def TextChunker.chunkDocumentsAlloc (c : TextChunker) (docs : List Dict) (h : Heap) :
    Option (List Nat × Heap) :=
  (c.chunk_documents docs).map (fun out => allocChunksFrom h out)

/-! The source adapters (`src/backend/ingestion/scrapers/`). Dates are
compared with Python `>` / `<` on `datetime` values; for the filtering
claims the relevant payload dates are modelled as integer timestamps
(`Val.int`), which carry exactly the order the comparisons use. -/

/-- Shared helper `BaseScraper._create_document` (base.py lines 55-83):
the standardized document dict, in the literal key order of the source,
with `source` from the class attribute `SOURCE_NAME` and a missing
`metadata` argument replaced by an empty dict (`metadata or {}`). -/
def BaseScraper.create_document (source_name title content url : String)
    (published_date : PyDateTime) (metadata : Option Dict) : Dict :=
  [("title", Val.str title),
   ("content", Val.str content),
   ("url", Val.str url),
   ("published_date", Val.dt published_date),
   ("source", Val.str source_name),
   ("metadata", Val.vdict (metadata.getD []))]

/-- The list comprehension of `BaseScraper._filter_by_date` (base.py
lines 50-53) for a present cutoff: keep the documents whose
`published_date` is strictly greater than the cutoff. `none` models the
exception Python would raise on a document without a comparable
`published_date` field. -/
def filterByDateLoop (last : Int) : List Dict → Option (List Dict)
  | [] => some []
  | doc :: rest =>
    match dictGet doc "published_date" with
    | some (Val.int t) =>
        (filterByDateLoop last rest).map (fun tail => if last < t then doc :: tail else tail)
    | _ => none

/-- Method `BaseScraper._filter_by_date` (base.py lines 34-53): all
documents are kept when `last_scraped_date` is `None`. -/
def BaseScraper.filter_by_date (documents : List Dict) : Option Int → Option (List Dict)
  | none => some documents
  | some last => filterByDateLoop last documents

/-- Specification-side predicate: the document date is strictly greater
than the cutoff (false when the field is missing or not a date). -/
def docDateGt (last : Int) (doc : Dict) : Bool :=
  match dictGet doc "published_date" with
  | some (Val.int t) => decide (last < t)
  | _ => false

/-- Specification-side predicate: the document date is strictly less
than the cutoff (false when the field is missing or not a date). -/
def docDateLt (last : Int) (doc : Dict) : Bool :=
  match dictGet doc "published_date" with
  | some (Val.int t) => decide (t < last)
  | _ => false

/-- The repository loop of `GitHubScraper._scrape_repositories`
(github.py lines 61-99), over the already parsed repository documents in
the order the pages deliver them (parsing and pagination are the
external fetch): each document is appended unless a cutoff is present
and the document is strictly older, in which case the function returns
the documents collected so far (the early `return repos`). `none` models
the exception Python would raise on a document without a comparable
date. -/
def GitHubScraper.scrape_repositories_filter (last : Option Int) : List Dict → Option (List Dict)
  | [] => some []
  | doc :: rest =>
    match last with
    | none => (GitHubScraper.scrape_repositories_filter none rest).map (fun tail => doc :: tail)
    | some l =>
      match dictGet doc "published_date" with
      | some (Val.int t) =>
          if t < l then some []
          else (GitHubScraper.scrape_repositories_filter (some l) rest).map
            (fun tail => doc :: tail)
      | _ => none

/-- Method `MediumScraper._parse_entry` (medium.py lines 49-56). The feed
entry fields and the BeautifulSoup text extraction of the description
are external inputs; `published_parsed` is the time tuple of the feed
entry, of which `datetime(*entry.published_parsed[:6])` uses the first
six fields and builds a datetime with no `tzinfo`, hence a naive one. -/
def MediumScraper.parse_entry (entry_title extracted_description entry_link : String)
    (pp1 pp2 pp3 pp4 pp5 pp6 : Nat) : Dict :=
  BaseScraper.create_document "medium" entry_title extracted_description entry_link
    { year := pp1, month := pp2, day := pp3, hour := pp4, minute := pp5, second := pp6,
      tzinfo := none } none

/-- Method `ResumeScraper._parse_last_modified` (resume.py lines
113-122): return the parsed Last-Modified header datetime when the
response carried one that parses (`header_parsed`, an external input
combining the three guards), else `datetime.now(tz=timezone.utc)`, whose
`tzinfo` is UTC by construction (the wall-clock fields are the external
input `now`). -/
def ResumeScraper.parse_last_modified (header_parsed : Option PyDateTime)
    (now : PyDateTime) : PyDateTime :=
  match header_parsed with
  | some d => d
  | none =>
    { year := now.year, month := now.month, day := now.day, hour := now.hour,
      minute := now.minute, second := now.second, tzinfo := some 0 }

/-- Method `ResumeScraper.scrape` (resume.py lines 33-48): its only
parameter besides `self` is `last_scraped_date` (unused); the result of
the network-dependent `_fetch_and_extract` is the external input
`fetched`. The fetched document is returned unconditionally; no hash
comparison occurs anywhere in the method. -/
def ResumeScraper.scrape (fetched : Option Dict) (last_scraped_date : Option PyDateTime) :
    List Dict :=
  match fetched with
  | none => []
  | some doc => [doc]

/-- Static method `ResumeScraper.document_is_new` (resume.py lines
99-102): Python `doc.get("content_hash") != stored_hash`. -/
def ResumeScraper.document_is_new (doc : Dict) (stored_hash : Option String) : Bool :=
  !Val.beq (pyDictGet doc "content_hash")
    (match stored_hash with | some s => Val.str s | none => Val.pynone)

/-- The keyword parameters of `ResumeScraper.scrape` (resume.py line 33). -/
def resumeScrapeKeywordParams : List String := ["last_scraped_date"]

/-- The keyword arguments `IngestionPipeline._scrape_source` builds for
the resume source (main.py lines 77-79): `last_scraped_date` plus
`stored_hash`. -/
def pipelineResumeKwargs : List String := ["last_scraped_date", "stored_hash"]

/-! The vector store (`src/backend/config/database.py`). The Qdrant
backend is external; it is modelled at the interface of section 6 of the
specification: a collection-state record, payload-filtered scrolls, and
payload field indexes. Stored `published_date` payloads are ISO-8601
serialized datetimes whose order the DATETIME index preserves; they are
modelled as integer timestamps, with `datetime.isoformat` and
`datetime.fromisoformat` a mutually inverse, order-preserving pair. -/

/-- A stored point as far as the watermark and hash queries read it: the
point id generated at insert time (`uuid4`, an identifier whose order is
unrelated to insertion order, modelled as a number), and the payload
fields `source`, `published_date` and optional `content_hash`. -/
structure QPoint where
  id : Nat
  source : String
  published_date : Int
  content_hash : Option String
deriving DecidableEq, Repr

/-- The backend state a `VectorDatabase` instance sees: whether
`self.client` is set, whether the named collection exists, its points in
insertion order, and the payload fields that have an index. -/
structure VectorDB where
  connected : Bool
  collection_exists : Bool
  points : List QPoint
  indexed_fields : List String
deriving DecidableEq, Repr

/-- The point with the later `published_date` of two (the first on a tie). -/
def laterByDate (p q : QPoint) : QPoint :=
  if q.published_date ≤ p.published_date then p else q

/-- Backend model: the point a scroll ordered by `published_date`
descending with limit 1 returns, i.e. a point with the maximal
`published_date` of the list (`none` on an empty list). -/
def maxByDate : List QPoint → Option QPoint
  | [] => none
  | p :: ps => some ((maxByDate ps).elim p (laterByDate p))

/-- The point with the smaller id of two (the second on a tie). -/
def earlierById (p q : QPoint) : QPoint :=
  if p.id < q.id then p else q

/-- Backend model: the point an unordered scroll with limit 1 returns.
Qdrant scrolls without `order_by` deliver points in ascending id order,
so this is the point with the least id (`none` on an empty list). -/
def minById : List QPoint → Option QPoint
  | [] => none
  | p :: ps => some ((minById ps).elim p (earlierById p))

/-- Helper `_query_latest_document` (database.py lines 146-167): scroll
the points whose payload `source` matches, ordered by `published_date`
descending, limit 1, and parse the date of the hit (the
serialize/parse round trip is the identity in this model). -/
def VectorDB.query_latest_document (db : VectorDB) (source : String) : Option Int :=
  (maxByDate (db.points.filter (fun p => p.source == source))).map
    (fun p => p.published_date)

/-- Method `get_last_scraped_date` (database.py lines 65-77): `None`
when the client is unset, the collection does not exist, or it is empty;
otherwise ensure the `published_date` payload index exists (a state
change only) and delegate to `_query_latest_document`. The pair returns
the value and the possibly index-extended state. -/
def VectorDB.get_last_scraped_date (db : VectorDB) (source : String) :
    Option Int × VectorDB :=
  if !db.connected || !db.collection_exists || db.points.isEmpty then (none, db)
  else
    let db1 :=
      if db.indexed_fields.contains "published_date" then db
      else { db with indexed_fields := db.indexed_fields ++ ["published_date"] }
    (db1.query_latest_document source, db1)

/-- Method `get_content_hash` (database.py lines 85-103): the same three
guards, then an unordered scroll filtered on `source` with limit 1 and
`payload.get("content_hash")` of the hit; `None` when there is no hit. -/
def VectorDB.get_content_hash (db : VectorDB) (source : String) : Option String :=
  if !db.connected || !db.collection_exists || db.points.isEmpty then none
  else
    match minById (db.points.filter (fun p => p.source == source)) with
    | some p => p.content_hash
    | none => none

/-- Specification-side predicate for claim C3: `d` is the maximum
`published_date` among exactly the points whose `source` matches. -/
abbrev isMaxMatchingDate (pts : List QPoint) (source : String) (d : Int) : Prop :=
  (∃ p ∈ pts.filter (fun p => p.source == source), p.published_date = d) ∧
  ∀ p ∈ pts.filter (fun p => p.source == source), p.published_date ≤ d

/-! Search result formatting and point creation
(`src/backend/config/database.py` lines 55-63, 105-133). -/

/-- A hit returned by the backend similarity query: point id, score, and
payload. The score is carried verbatim (the code never computes with
it), so it is any `Val`. -/
structure QHit where
  id : String
  score : Val
  payload : Dict

/-- A point as `_create_point_from_document` builds it: generated id,
vector, payload. -/
structure QPointStruct where
  id : String
  vector : Val
  payload : Dict

/-- Abbreviated model of `datetime.isoformat`: a string determined by
the fields; only its existence matters to the claims. -/
def PyDateTime.isoformat (d : PyDateTime) : String :=
  toString d.year ++ "-" ++ toString d.month ++ "-" ++ toString d.day ++ "T" ++
    toString d.hour ++ ":" ++ toString d.minute ++ ":" ++ toString d.second ++
    (match d.tzinfo with
     | some z => "+" ++ toString z
     | none => "")

/-- Helper `_format_search_result` (database.py lines 123-133): the
result dict with exactly the seven literal keys, reading five payload
fields and the id and score of the hit. `none` models the `KeyError`
Python raises when a payload field is missing. -/
def VectorDatabase.format_search_result (hit : QHit) : Option Dict :=
  match dictGet hit.payload "title", dictGet hit.payload "content",
      dictGet hit.payload "source", dictGet hit.payload "url",
      dictGet hit.payload "published_date" with
  | some t, some c, some s, some u, some p =>
    some [("id", Val.str hit.id),
          ("title", t),
          ("content", c),
          ("source", s),
          ("url", u),
          ("published_date", p),
          ("similarity", hit.score)]
  | _, _, _, _, _ => none

/-- Method `search_similar` (database.py lines 55-63): format every hit
the backend query returned, in order (the backend call itself is the
external input `hits`). -/
def VectorDatabase.search_similar_results : List QHit → Option (List Dict)
  | [] => some []
  | hit :: hits =>
    match VectorDatabase.format_search_result hit,
        VectorDatabase.search_similar_results hits with
    | some d, some ds => some (d :: ds)
    | _, _ => none

/-- Helper `_create_point_from_document` (database.py lines 105-121):
the payload dict with the six literal keys (the date serialized with
`isoformat`), plus `content_hash` appended exactly when the document
carries one; the point gets the freshly generated uuid (external input
`fresh_id`) and the embedding of the document as its vector. `none`
models the exceptions on missing fields or a non-datetime date. -/
def VectorDatabase.create_point_from_document (fresh_id : String) (doc : Dict) :
    Option QPointStruct :=
  match dictGet doc "title", dictGet doc "content", dictGet doc "source",
      dictGet doc "url", dictGet doc "published_date", dictGet doc "chunk_index",
      dictGet doc "embedding" with
  | some t, some c, some s, some u, some (Val.dt d), some ci, some emb =>
    let base := [("title", t), ("content", c), ("source", s), ("url", u),
                 ("published_date", Val.str d.isoformat), ("chunk_index", ci)]
    let payload :=
      match dictGet doc "content_hash" with
      | some h => base ++ [("content_hash", h)]
      | none => base
    some { id := fresh_id, vector := emb, payload := payload }
  | _, _, _, _, _, _, _ => none

/-! Concrete fixtures used by witnesses and counterexamples. -/

/-- A fetched resume document whose `content_hash` is `"h"`. -/
def resumeDocC2 : Dict :=
  [("title", Val.str "resume"), ("content", Val.str "text"),
   ("content_hash", Val.str "h")]

/-- Two documents shaped like the chunker test fixtures. -/
def docsC8 : List Dict :=
  [[("content", Val.str "one two three four"), ("title", Val.str "Doc 1")],
   [("content", Val.str "alpha beta gamma delta"), ("title", Val.str "Doc 2")]]

/-- One document that chunks into two windows with `chunk_size = 3`,
`overlap = 1`. -/
def docsC9 : List Dict :=
  [[("content", Val.str "one two three four"), ("source", Val.str "test")]]

/-- The references and heap produced by chunking `docsC9` on an empty
heap. -/
def allocC9 : List Nat × Heap :=
  (TextChunker.chunkDocumentsAlloc { chunk_size := 3, overlap := 1 } docsC9
    { cells := [] }).getD ([], { cells := [] })

/-- A store with points of mixed sources: two medium points (dates 3 and
7) and one github point (date 5). -/
def dbC3 : VectorDB :=
  { connected := true, collection_exists := true,
    points := [{ id := 0, source := "medium", published_date := 3, content_hash := none },
               { id := 1, source := "github", published_date := 5, content_hash := none },
               { id := 2, source := "medium", published_date := 7, content_hash := none }],
    indexed_fields := [] }

/-- A connected store whose collection does not exist. -/
def dbAbsent : VectorDB :=
  { connected := true, collection_exists := false, points := [], indexed_fields := [] }

/-- A store with two resume points: the older insertion carries the
smaller id and hash `"old"`, the most recent insertion carries hash
`"new"`. -/
def dbC4 : VectorDB :=
  { connected := true, collection_exists := true,
    points := [{ id := 0, source := "resume", published_date := 1, content_hash := some "old" },
               { id := 1, source := "resume", published_date := 2, content_hash := some "new" }],
    indexed_fields := [] }

/-- A repository document whose date equals the watermark below. -/
def c6doc : Dict :=
  [("title", Val.str "Repository r"), ("published_date", Val.int 5)]

/-- An older and a newer document for the date-filter witness. -/
def c6docOld : Dict :=
  [("title", Val.str "Old Post"), ("published_date", Val.int 3)]

/-- The newer document for the date-filter witness. -/
def c6docNew : Dict :=
  [("title", Val.str "New Post"), ("published_date", Val.int 8)]

/-- A chunked document without a `content_hash` field, as every medium or
github chunk is. -/
def docC10 : Dict :=
  [("title", Val.str "T"), ("content", Val.str "C"), ("source", Val.str "medium"),
   ("url", Val.str "U"),
   ("published_date", Val.dt { year := 2024, month := 1, day := 1, hour := 0,
                               minute := 0, second := 0, tzinfo := none }),
   ("chunk_index", Val.int 0), ("embedding", Val.vlist [])]

/-- A backend hit with a full stored payload. -/
def hitC10 : QHit :=
  { id := "pid", score := Val.int 92,
    payload := [("title", Val.str "T"), ("content", Val.str "C"),
                ("source", Val.str "medium"), ("url", Val.str "U"),
                ("published_date", Val.str "2024-01-01T00:00:00"),
                ("chunk_index", Val.int 0)] }

/-! Helper lemmas: dictionaries. -/

/-- Lookup at the head key. -/
theorem dictGet_cons_self (k : String) (v : Val) (rest : Dict) :
    dictGet ((k, v) :: rest) k = some v := by
  simp [dictGet]

/-- Lookup skips a head entry with a different key. -/
theorem dictGet_cons_ne (k1 key : String) (v : Val) (rest : Dict) (h : k1 ≠ key) :
    dictGet ((k1, v) :: rest) key = dictGet rest key := by
  simp [dictGet, List.find?_cons_of_neg, h]

/-- Looking up the key just set yields the new value. -/
theorem dictGet_dictSet_self (d : Dict) (k : String) (v : Val) :
    dictGet (dictSet d k v) k = some v := by
  induction d with
  | nil => simp [dictGet, dictSet]
  | cons kv rest ih =>
    obtain ⟨k1, v1⟩ := kv
    by_cases h : k1 = k
    · simp [dictSet, h, dictGet_cons_self]
    · rw [dictSet, if_neg (by simpa using h), dictGet_cons_ne k1 k v1 _ h]
      exact ih

/-- Setting one key leaves every other lookup unchanged. -/
theorem dictGet_dictSet_ne (d : Dict) (k key : String) (v : Val) (h : key ≠ k) :
    dictGet (dictSet d k v) key = dictGet d key := by
  induction d with
  | nil => simp [dictGet, dictSet, List.find?_cons_of_neg, Ne.symm h]
  | cons kv rest ih =>
    obtain ⟨k1, v1⟩ := kv
    by_cases h1 : k1 = k
    · subst h1
      rw [dictSet, if_pos (by simp)]
      rw [dictGet_cons_ne _ _ _ _ (Ne.symm h), dictGet_cons_ne _ _ _ _ (Ne.symm h)]
    · rw [dictSet, if_neg (by simpa using h1)]
      by_cases h2 : k1 = key
      · subst h2
        rw [dictGet_cons_self, dictGet_cons_self]
      · rw [dictGet_cons_ne _ _ _ _ h2, dictGet_cons_ne _ _ _ _ h2]
        exact ih

/-! Helper lemmas: strings and word lists. -/

/-- A string built from a nonempty character list is not the empty
string. -/
theorem string_mk_ne_empty (l : List Char) (h : l ≠ []) : String.mk l ≠ "" := by
  intro hc
  exact h (by simpa using congrArg String.data hc)

/-- A nonempty string has positive length. -/
theorem string_length_pos (s : String) (h : s ≠ "") : 0 < s.length := by
  cases s with
  | mk d =>
    cases d with
    | nil => exact absurd rfl h
    | cons c cs => simp [String.length]

/-- Every word `splitWordsAux` emits is nonempty. -/
theorem splitWordsAux_mem_ne_empty :
    ∀ (cs acc : List Char), ∀ w ∈ splitWordsAux cs acc, w ≠ "" := by
  intro cs
  induction cs with
  | nil =>
    intro acc w hw
    simp only [splitWordsAux] at hw
    split at hw
    · simp at hw
    · next hne =>
      simp only [List.mem_singleton] at hw
      subst hw
      apply string_mk_ne_empty
      simpa [List.isEmpty_iff] using hne
  | cons c cs ih =>
    intro acc w hw
    simp only [splitWordsAux] at hw
    split at hw
    · rcases List.mem_append.mp hw with hw1 | hw2
      · split at hw1
        · simp at hw1
        · next hne =>
          simp only [List.mem_singleton] at hw1
          subst hw1
          apply string_mk_ne_empty
          simpa [List.isEmpty_iff] using hne
      · exact ih [] w hw2
    · exact ih (c :: acc) w hw

/-- Every word of a Python whitespace split is nonempty. -/
theorem pySplit_mem_ne_empty (text : String) : ∀ w ∈ pySplit text, w ≠ "" :=
  splitWordsAux_mem_ne_empty text.toList []

/-- Joining a nonempty list of nonempty words gives a nonempty string. -/
theorem pyJoin_ne_empty :
    ∀ (l : List String), l ≠ [] → (∀ w ∈ l, w ≠ "") → pyJoin l ≠ "" := by
  intro l
  induction l with
  | nil => intro h; exact absurd rfl h
  | cons w ws ih =>
    intro _ hmem
    have hw : w ≠ "" := hmem w (List.mem_cons_self w ws)
    cases ws with
    | nil => simpa [pyJoin] using hw
    | cons x xs =>
      intro hc
      have hjoin : pyJoin (w :: x :: xs) = w ++ " " ++ pyJoin (x :: xs) := rfl
      rw [hjoin] at hc
      have hlen := congrArg String.length hc
      simp [String.length_append] at hlen
      have hwpos : 0 < w.length := string_length_pos w hw
      omega

/-! Helper lemmas: windows and the chunk loop. -/

/-- The window decomposition of a nonempty word list is nonempty. -/
theorem windows_ne_nil (cs step : Nat) (words : List String) (h : words ≠ []) :
    windows cs step words ≠ [] := by
  obtain ⟨w, ws, rfl⟩ := List.exists_cons_of_ne_nil h
  rw [windows]
  split <;> simp

/-- The first window is the first `chunk_size` words. -/
theorem windows_head (cs step : Nat) (words : List String) (h : words ≠ []) :
    (windows cs step words).head? = some (words.take cs) := by
  obtain ⟨w, ws, rfl⟩ := List.exists_cons_of_ne_nil h
  rw [windows]
  split
  · next hle => rw [List.take_of_length_le hle]; rfl
  · rfl

/-- The last window is a suffix of the word list: it ends at the final
word. -/
theorem windows_getLast (cs step : Nat) (hstep1 : 1 ≤ step) (hstep2 : step ≤ cs) :
    ∀ (N : Nat) (words : List String), words.length ≤ N → words ≠ [] →
      ∃ k, k < words.length ∧ (windows cs step words).getLast? = some (words.drop k) := by
  have hmx : max step 1 = step := Nat.max_eq_left hstep1
  intro N
  induction N with
  | zero =>
    intro words hlen hne
    obtain ⟨w, ws, rfl⟩ := List.exists_cons_of_ne_nil hne
    simp at hlen
  | succ N ih =>
    intro words hlen hne
    obtain ⟨w, ws, rfl⟩ := List.exists_cons_of_ne_nil hne
    rw [windows, hmx]
    by_cases hle : (w :: ws).length ≤ cs
    · rw [if_pos hle]
      exact ⟨0, by simp, by simp⟩
    · rw [if_neg hle]
      have hdne : (w :: ws).drop step ≠ [] := by
        apply List.length_pos.mp
        rw [List.length_drop]
        simp only [List.length_cons, not_le] at hle ⊢
        omega
      have hdlen : ((w :: ws).drop step).length ≤ N := by
        rw [List.length_drop]
        simp only [List.length_cons] at hlen ⊢
        omega
      obtain ⟨k, hk, hlast⟩ := ih _ hdlen hdne
      refine ⟨step + k, ?_, ?_⟩
      · rw [List.length_drop] at hk
        simp only [List.length_cons, not_le] at hle hk ⊢
        omega
      · obtain ⟨x, xs, hx⟩ := List.exists_cons_of_ne_nil
          (windows_ne_nil cs step _ hdne)
        rw [hx, List.getLast?_cons_cons, ← hx, hlast, List.drop_drop]

/-- A Python slice with nonnegative bounds, starting at a natural index,
is a take after a drop. -/
theorem pySlice_natCast (xs : List String) (n : Nat) (cs : Int) (hcs : 0 ≤ cs) :
    pySlice xs (n : Int) ((n : Int) + cs) = (xs.drop n).take cs.toNat := by
  unfold pySlice pyIdx
  rw [if_neg (by omega : ¬((n : Int) + cs < 0)), if_neg (by omega : ¬((n : Int) < 0))]
  have h1 : ((n : Int)).toNat = n := Int.toNat_natCast n
  have h2 : ((n : Int) + cs).toNat = n + cs.toNat := by omega
  rw [h1, h2]
  by_cases hn : n ≤ xs.length
  · rw [Nat.min_eq_left hn, List.drop_take]
    apply List.take_eq_take.mpr
    rw [List.length_drop]
    omega
  · rw [Nat.min_eq_right (le_of_not_le hn)]
    rw [List.drop_eq_nil_of_le (by rw [List.length_take]; exact Nat.min_le_right _ _),
      List.drop_eq_nil_of_le (le_of_not_le hn), List.take_nil]

/-- A nonempty prefix: taking at least one element of a nonempty list is
nonempty. -/
theorem take_ne_nil_of_ne_nil (l : List String) (k : Nat) (hk : 1 ≤ k) (h : l ≠ []) :
    l.take k ≠ [] := by
  apply List.length_pos.mp
  rw [List.length_take]
  have := List.length_pos.mpr h
  omega

/-- The chunking loop computes exactly the joined window decomposition:
for a valid configuration (`0 ≤ overlap < chunk_size`) and fuel
exceeding the remaining word count, the loop started at word `n` yields
the windows of the word suffix from `n`, each joined with single
spaces. -/
theorem chunkLoop_eq_windows (words : List String) (hw : ∀ w ∈ words, w ≠ "")
    (cs ov : Int) (hov : 0 ≤ ov) (hlt : ov < cs) :
    ∀ (fuel n : Nat), words.length - n < fuel →
      chunkLoop words cs (cs - ov) fuel (n : Int) =
        some ((windows cs.toNat (cs - ov).toNat (words.drop n)).map pyJoin) := by
  intro fuel
  induction fuel with
  | zero => intro n h; exact absurd h (Nat.not_lt_zero _)
  | succ fuel ih =>
    intro n hfuel
    rw [chunkLoop]
    by_cases hn : (n : Int) < (words.length : Int)
    · rw [if_pos hn]
      have hnlen : n < words.length := by exact_mod_cast hn
      have hcs0 : 0 ≤ cs := le_of_lt (lt_of_le_of_lt hov hlt)
      have hcs1 : 1 ≤ cs.toNat := by omega
      have hslice : pySlice words (n : Int) ((n : Int) + cs) = (words.drop n).take cs.toNat :=
        pySlice_natCast words n cs hcs0
      have hDne : words.drop n ≠ [] := by
        apply List.length_pos.mp
        rw [List.length_drop]
        omega
      have hmem : ∀ w ∈ (words.drop n).take cs.toNat, w ≠ "" := by
        intro w hw2
        exact hw w (List.mem_of_mem_drop (List.mem_of_mem_take hw2))
      have hchunkne : pyJoin (pySlice words (n : Int) ((n : Int) + cs)) ≠ "" := by
        rw [hslice]
        exact pyJoin_ne_empty _ (take_ne_nil_of_ne_nil _ _ hcs1 hDne) hmem
      by_cases hbr : (n : Int) + cs ≥ (words.length : Int)
      · rw [if_pos hbr, if_pos hchunkne]
        obtain ⟨d, ds, hD⟩ := List.exists_cons_of_ne_nil hDne
        have hDlen : (words.drop n).length = words.length - n := List.length_drop n words
        have hle : (d :: ds).length ≤ cs.toNat := by
          rw [← hD, hDlen]
          omega
        rw [hD, windows, if_pos hle, hslice, hD, List.take_of_length_le hle]
        rfl
      · rw [if_neg hbr]
        have hsN1 : 1 ≤ (cs - ov).toNat := by omega
        have hcast : (n : Int) + (cs - ov) = ((n + (cs - ov).toNat : Nat) : Int) := by omega
        rw [hcast, ih (n + (cs - ov).toNat) (by omega)]
        rw [Option.map_some']
        rw [if_pos hchunkne]
        obtain ⟨d, ds, hD⟩ := List.exists_cons_of_ne_nil hDne
        have hDlen : (words.drop n).length = words.length - n := List.length_drop n words
        have hgt : ¬(d :: ds).length ≤ cs.toNat := by
          rw [← hD, hDlen]
          omega
        have hmx : max ((cs - ov).toNat) 1 = (cs - ov).toNat := Nat.max_eq_left hsN1
        rw [hD, windows, if_neg hgt, hmx, ← hD, List.drop_drop, List.map_cons]
        rw [hslice]
    · rw [if_neg hn]
      have hge : words.length ≤ n := by exact_mod_cast not_lt.mp hn
      rw [List.drop_eq_nil_of_le hge]
      simp [windows]

/-- The characterization of `chunk_text` for a valid configuration: the
joined windows of the split words. -/
theorem chunk_text_eq_windows (c : TextChunker) (hov : 0 ≤ c.overlap)
    (hlt : c.overlap < c.chunk_size) (text : String) :
    c.chunk_text text =
      some ((windows c.chunk_size.toNat (c.chunk_size - c.overlap).toNat
        (pySplit text)).map pyJoin) := by
  unfold TextChunker.chunk_text
  have h := chunkLoop_eq_windows (pySplit text) (pySplit_mem_ne_empty text)
    c.chunk_size c.overlap hov hlt ((pySplit text).length + 1) 0 (by omega)
  simpa using h

/-! Helper lemmas: the backend scroll models. -/

/-- The descending-date scroll returns no hit exactly on the empty list. -/
theorem maxByDate_eq_none (l : List QPoint) : maxByDate l = none ↔ l = [] := by
  cases l <;> simp [maxByDate]

/-- The descending-date scroll hit is a member of the list. -/
theorem maxByDate_mem (l : List QPoint) (p : QPoint) (h : maxByDate l = some p) : p ∈ l := by
  induction l generalizing p with
  | nil => simp [maxByDate] at h
  | cons a l ih =>
    rw [maxByDate] at h
    injection h with h
    rcases hm : maxByDate l with _ | q <;> rw [hm] at h <;> dsimp [Option.elim] at h
    · exact h ▸ List.mem_cons_self _ _
    · rw [laterByDate] at h
      split_ifs at h
      · exact h ▸ List.mem_cons_self _ _
      · exact h ▸ List.mem_cons_of_mem _ (ih q hm)

/-- The descending-date scroll hit has the maximal date of the list. -/
theorem maxByDate_le (l : List QPoint) (p : QPoint) (h : maxByDate l = some p) :
    ∀ q ∈ l, q.published_date ≤ p.published_date := by
  induction l generalizing p with
  | nil => simp [maxByDate] at h
  | cons a l ih =>
    rw [maxByDate] at h
    injection h with h
    rcases hm : maxByDate l with _ | q <;> rw [hm] at h <;> dsimp [Option.elim] at h
    · have hl : l = [] := (maxByDate_eq_none l).mp hm
      intro r hr
      rcases List.mem_cons.mp hr with rfl | hr2
      · exact h ▸ le_refl _
      · rw [hl] at hr2
        simp at hr2
    · rw [laterByDate] at h
      split_ifs at h with hle
      · intro r hr
        rcases List.mem_cons.mp hr with rfl | hr2
        · exact h ▸ le_refl _
        · exact h ▸ le_trans (ih q hm r hr2) hle
      · intro r hr
        rcases List.mem_cons.mp hr with rfl | hr2
        · exact h ▸ le_of_not_le hle
        · exact h ▸ ih q hm r hr2

/-- The descending-date scroll finds a hit on a nonempty list. -/
theorem maxByDate_isSome (l : List QPoint) (h : l ≠ []) : ∃ p, maxByDate l = some p := by
  cases l with
  | nil => exact absurd rfl h
  | cons a l => exact ⟨_, rfl⟩

/-- The unordered scroll returns no hit exactly on the empty list. -/
theorem minById_eq_none (l : List QPoint) : minById l = none ↔ l = [] := by
  cases l <;> simp [minById]

/-- The unordered scroll hit is a member of the list. -/
theorem minById_mem (l : List QPoint) (p : QPoint) (h : minById l = some p) : p ∈ l := by
  induction l generalizing p with
  | nil => simp [minById] at h
  | cons a l ih =>
    rw [minById] at h
    injection h with h
    rcases hm : minById l with _ | q <;> rw [hm] at h <;> dsimp [Option.elim] at h
    · exact h ▸ List.mem_cons_self _ _
    · rw [earlierById] at h
      split_ifs at h
      · exact h ▸ List.mem_cons_self _ _
      · exact h ▸ List.mem_cons_of_mem _ (ih q hm)

/-- The unordered scroll hit has the least id of the list. -/
theorem minById_le (l : List QPoint) (p : QPoint) (h : minById l = some p) :
    ∀ q ∈ l, p.id ≤ q.id := by
  induction l generalizing p with
  | nil => simp [minById] at h
  | cons a l ih =>
    rw [minById] at h
    injection h with h
    rcases hm : minById l with _ | q <;> rw [hm] at h <;> dsimp [Option.elim] at h
    · have hl : l = [] := (minById_eq_none l).mp hm
      intro r hr
      rcases List.mem_cons.mp hr with rfl | hr2
      · exact h ▸ le_refl _
      · rw [hl] at hr2
        simp at hr2
    · rw [earlierById] at h
      split_ifs at h with hlt
      · intro r hr
        rcases List.mem_cons.mp hr with rfl | hr2
        · exact h ▸ le_refl _
        · exact h ▸ le_trans (le_of_lt hlt) (ih q hm r hr2)
      · intro r hr
        rcases List.mem_cons.mp hr with rfl | hr2
        · exact h ▸ le_of_not_lt hlt
        · exact h ▸ ih q hm r hr2

/-- The unordered scroll finds a hit on a nonempty list. -/
theorem minById_isSome (l : List QPoint) (h : l ≠ []) : ∃ p, minById l = some p := by
  cases l with
  | nil => exact absurd rfl h
  | cons a l => exact ⟨_, rfl⟩

/-! Helper lemmas: the heap model. -/

/-- The references allocated for the chunk values are the consecutive
fresh addresses after the existing cells: in particular they are
pairwise distinct. -/
theorem allocChunksFrom_refs (ds : List Dict) :
    ∀ (h : Heap), (allocChunksFrom h ds).1 = List.range' h.cells.length ds.length := by
  induction ds with
  | nil => intro h; rfl
  | cons d ds ih =>
    intro h
    rw [allocChunksFrom]
    have ihh := ih { cells := h.cells ++ [d] }
    simp only [List.length_append, List.length_singleton] at ihh
    rw [ihh]
    rw [List.length_cons, List.range'_succ]

/-- The heap after allocation holds the old cells followed by the new
values. -/
theorem allocChunksFrom_heap (ds : List Dict) :
    ∀ (h : Heap), (allocChunksFrom h ds).2.cells = h.cells ++ ds := by
  induction ds with
  | nil => intro h; simp [allocChunksFrom]
  | cons d ds ih =>
    intro h
    rw [allocChunksFrom]
    have ihh := ih { cells := h.cells ++ [d] }
    simp only at ihh ⊢
    rw [ihh, List.append_assoc]
    rfl

/-- Writing a field through one reference leaves every other reference
untouched. -/
theorem heap_read_write_ne (h : Heap) (r r2 : Nat) (hne : r2 ≠ r) (key : String) (v : Val) :
    (h.write r key v).read r2 = h.read r2 := by
  unfold Heap.write Heap.read
  exact List.getElem?_set_ne (Ne.symm hne)

/-- Entries of `range'` at distinct positions are distinct. -/
theorem range'_getD_ne (s n i j : Nat) (hi : i < n) (hj : j < n) (hij : i ≠ j) :
    (List.range' s n).getD i 0 ≠ (List.range' s n).getD j 0 := by
  have hlen : (List.range' s n).length = n := List.length_range' _ _ _
  have hgi : (List.range' s n).getD i 0 = s + i := by
    rw [List.getD_eq_getElem _ _ (by omega), List.getElem_range']
    omega
  have hgj : (List.range' s n).getD j 0 = s + j := by
    rw [List.getD_eq_getElem _ _ (by omega), List.getElem_range']
    omega
  rw [hgi, hgj]
  omega

/-! Claim theorems. -/

/-- Claim C5 (code bug): the specification requires a ConfigurationError
at construction time for a non-positive step, but `TextChunker.__init__`
performs no validation: constructing `TextChunker(2, 2)` (step 0)
succeeds, and `chunk_text` then fails to terminate on the three-word
text `"a b c"` — the loop body never advances `i`, shown here by the
loop returning no result for any amount of fuel. -/
theorem C5_init_accepts_nonpositive_step :
    TextChunker.init 2 2 = Except.ok { chunk_size := 2, overlap := 2 } ∧
    TextChunker.chunk_text { chunk_size := 2, overlap := 2 } "a b c" = none ∧
    ∀ fuel, chunkLoop ["a", "b", "c"] 2 0 fuel 0 = none := by
  refine ⟨rfl, rfl, ?_⟩
  intro fuel
  induction fuel with
  | zero => rfl
  | succ n ih =>
    rw [chunkLoop]
    rw [if_pos (by norm_num), if_neg (by norm_num)]
    rw [show ((0 : Int) + 0) = 0 from rfl, ih]
    rfl

/-- Claim C2 (code bug): the specification requires the resume scrape to
keep the fetched document only if its content hash differs from the
stored hash, but `ResumeScraper.scrape` has no `stored_hash` parameter
and returns the fetched document unconditionally — even when
`document_is_new` reports the hash unchanged — and the orchestrator call
`scraper.scrape(last_scraped_date=..., stored_hash=...)` in
`IngestionPipeline._scrape_source` would raise a TypeError against this
signature. -/
theorem C2_resume_scrape_ignores_stored_hash :
    ResumeScraper.scrape (some resumeDocC2) none = [resumeDocC2] ∧
    ResumeScraper.document_is_new resumeDocC2 (some "h") = false ∧
    bindKwargs resumeScrapeKeywordParams pipelineResumeKwargs =
      Except.error (PyErr.typeError "unexpected keyword argument stored_hash") := by
  exact ⟨rfl, rfl, rfl⟩

/-- Claim C7 (amended): every document built by the shared helper
carries exactly the `published_date` it is given; the resume scraper
yields the parsed Last-Modified datetime when one is available (aware
whenever the parsed header is aware) and an explicitly UTC-aware
wall-clock datetime otherwise; but every Medium document has a naive
`published_date` (built from the feed time tuple with no tzinfo), so the
timezone-awareness invariant does not extend to Medium. -/
theorem C7_published_date_timezone (src t c u : String) (pd : PyDateTime) (md : Option Dict)
    (pp1 pp2 pp3 pp4 pp5 pp6 : Nat) (hp : Option PyDateTime) (now : PyDateTime) :
    dictGet (BaseScraper.create_document src t c u pd md) "published_date" =
      some (Val.dt pd) ∧
    dictGet (MediumScraper.parse_entry t c u pp1 pp2 pp3 pp4 pp5 pp6) "published_date" =
      some (Val.dt { year := pp1, month := pp2, day := pp3, hour := pp4, minute := pp5,
                     second := pp6, tzinfo := none }) ∧
    (MediumScraper.parse_entry t c u pp1 pp2 pp3 pp4 pp5 pp6).find?
      (fun kv => kv.fst == "published_date") ≠ none ∧
    (∀ d0, hp = some d0 → ResumeScraper.parse_last_modified hp now = d0) ∧
    (ResumeScraper.parse_last_modified none now).tzinfo = some 0 := by
  refine ⟨rfl, rfl, by simp [MediumScraper.parse_entry, BaseScraper.create_document], ?_, rfl⟩
  intro d0 h
  rw [h]
  rfl

/-- Claim C7 counterexample: the Medium document parsed from the
concrete feed entry of the repository test suite has a naive
`published_date` (no timezone information), and a Medium entry with an
empty extracted description yields a document with empty content, so
the Document invariant of the specification fails for Medium. -/
theorem C7_counterexample :
    dictGet (MediumScraper.parse_entry "Test Post Title" "Test content"
        "url1" 2024 1 15 10 30 45) "published_date" =
      some (Val.dt { year := 2024, month := 1, day := 15, hour := 10, minute := 30,
                     second := 45, tzinfo := none }) ∧
    ({ year := 2024, month := 1, day := 15, hour := 10, minute := 30, second := 45,
       tzinfo := none } : PyDateTime).tzinfo = none ∧
    dictGet (MediumScraper.parse_entry "Empty Post" "" "url2" 2024 1 15 10 30 45)
      "content" = some (Val.str "") := by
  exact ⟨rfl, rfl, rfl⟩

/-! Helper lemmas for claim C6. -/

/-- The date filter with a cutoff keeps exactly the strictly newer
documents, provided every document carries a date. -/
theorem filterByDateLoop_eq_filter (l : Int) (docs : List Dict)
    (hd : ∀ doc ∈ docs, ∃ t, dictGet doc "published_date" = some (Val.int t)) :
    filterByDateLoop l docs = some (docs.filter (docDateGt l)) := by
  induction docs with
  | nil => rfl
  | cons doc rest ih =>
    obtain ⟨t, ht⟩ := hd doc (List.mem_cons_self _ _)
    rw [filterByDateLoop, ht]
    dsimp only
    rw [ih (fun d hdm => hd d (List.mem_cons_of_mem _ hdm))]
    rw [Option.map_some', List.filter_cons]
    have hgt : docDateGt l doc = decide (l < t) := by rw [docDateGt, ht]
    rw [hgt]
    by_cases hlt : l < t
    · rw [if_pos hlt, if_pos (by simpa using hlt)]
    · rw [if_neg hlt, if_neg (by simpa using hlt)]

/-- The github repository loop without a cutoff keeps everything. -/
theorem githubLoop_none (docs : List Dict) :
    GitHubScraper.scrape_repositories_filter none docs = some docs := by
  induction docs with
  | nil => rfl
  | cons doc rest ih =>
    rw [GitHubScraper.scrape_repositories_filter, ih, Option.map_some']

/-- The github repository loop with a cutoff keeps the longest prefix in
which no document is strictly older than the cutoff, provided every
document carries a date. -/
theorem githubLoop_eq_takeWhile (l : Int) (docs : List Dict)
    (hd : ∀ doc ∈ docs, ∃ t, dictGet doc "published_date" = some (Val.int t)) :
    GitHubScraper.scrape_repositories_filter (some l) docs =
      some (docs.takeWhile (fun doc => !docDateLt l doc)) := by
  induction docs with
  | nil => rfl
  | cons doc rest ih =>
    obtain ⟨t, ht⟩ := hd doc (List.mem_cons_self _ _)
    rw [GitHubScraper.scrape_repositories_filter, ht]
    dsimp only
    rw [List.takeWhile_cons]
    have hlt2 : docDateLt l doc = decide (t < l) := by rw [docDateLt, ht]
    rw [hlt2]
    by_cases hlt : t < l
    · rw [if_pos hlt]
      simp [hlt]
    · rw [if_neg hlt, ih (fun d hdm => hd d (List.mem_cons_of_mem _ hdm)), Option.map_some']
      simp [hlt]

/-- Claim C6 (amended): with no stored watermark both date-filtered
paths keep all documents; with a watermark, the shared
`_filter_by_date` helper (the Medium path and the github profile check)
keeps exactly the documents dated strictly after the watermark, while
the github repository scan keeps the longest prefix of the fetched
repositories containing no strictly older document — so a repository
dated exactly at the watermark is kept by that path, not excluded. -/
theorem C6_date_filter (docs : List Dict) (l : Int) :
    BaseScraper.filter_by_date docs none = some docs ∧
    GitHubScraper.scrape_repositories_filter none docs = some docs ∧
    ((∀ doc ∈ docs, ∃ t, dictGet doc "published_date" = some (Val.int t)) →
      BaseScraper.filter_by_date docs (some l) = some (docs.filter (docDateGt l)) ∧
      GitHubScraper.scrape_repositories_filter (some l) docs =
        some (docs.takeWhile (fun doc => !docDateLt l doc))) := by
  refine ⟨rfl, githubLoop_none docs, ?_⟩
  intro hd
  exact ⟨filterByDateLoop_eq_filter l docs hd, githubLoop_eq_takeWhile l docs hd⟩

/-- Claim C6 counterexample: a repository document dated exactly at the
watermark is not strictly newer, yet the github repository scan keeps
it, so the scan does not keep exactly the strictly newer documents. -/
theorem C6_counterexample :
    GitHubScraper.scrape_repositories_filter (some 5) [c6doc] = some [c6doc] ∧
    docDateGt 5 c6doc = false := by
  exact ⟨rfl, rfl⟩

/-- Claim C6 witness: the base date filter at watermark 5 drops the
document dated 3 and keeps the one dated 8, and keeps both when no
watermark is given. -/
theorem C6_witness :
    BaseScraper.filter_by_date [c6docOld, c6docNew] none = some [c6docOld, c6docNew] ∧
    BaseScraper.filter_by_date [c6docOld, c6docNew] (some 5) =
      some ([c6docOld, c6docNew].filter (docDateGt 5)) ∧
    [c6docOld, c6docNew].filter (docDateGt 5) = [c6docNew] := by
  refine ⟨(C6_date_filter [c6docOld, c6docNew] 5).1, ?_, rfl⟩
  refine ((C6_date_filter [c6docOld, c6docNew] 5).2.2 ?_).1
  intro doc hdm
  rcases List.mem_cons.mp hdm with rfl | hdm2
  · exact ⟨3, rfl⟩
  rcases List.mem_cons.mp hdm2 with rfl | hdm3
  · exact ⟨8, rfl⟩
  · cases hdm3

/-- Claim C3: `get_last_scraped_date` returns the no-watermark value
without raising when the client is unset, the collection does not exist,
the collection is empty, or no point matches the requested source; and
when matching points exist among points of mixed sources it returns the
maximum `published_date` among exactly the matching points. -/
theorem C3_get_last_scraped_date (db : VectorDB) (source : String) :
    (db.connected = false → (db.get_last_scraped_date source).1 = none) ∧
    (db.collection_exists = false → (db.get_last_scraped_date source).1 = none) ∧
    (db.points = [] → (db.get_last_scraped_date source).1 = none) ∧
    (db.points.filter (fun p => p.source == source) = [] →
      (db.get_last_scraped_date source).1 = none) ∧
    (db.connected = true → db.collection_exists = true →
      db.points.filter (fun p => p.source == source) ≠ [] →
      ∃ d, (db.get_last_scraped_date source).1 = some d ∧
        isMaxMatchingDate db.points source d) := by
  refine ⟨?_, ?_, ?_, ?_, ?_⟩
  · intro h
    simp [VectorDB.get_last_scraped_date, h]
  · intro h
    simp [VectorDB.get_last_scraped_date, h]
  · intro h
    simp [VectorDB.get_last_scraped_date, h]
  · intro hfil
    rw [VectorDB.get_last_scraped_date]
    by_cases hg : (!db.connected || !db.collection_exists || db.points.isEmpty) = true
    · rw [if_pos hg]
    · rw [if_neg hg]
      have hpts : (if db.indexed_fields.contains "published_date" then db
          else { db with indexed_fields := db.indexed_fields ++ ["published_date"] }).points
          = db.points := by
        split <;> rfl
      simp only [VectorDB.query_latest_document, hpts, hfil, maxByDate, Option.map_none']
  · intro hc he hfil
    have hne : db.points ≠ [] := by
      intro h0
      rw [h0] at hfil
      exact hfil rfl
    have hg : (!db.connected || !db.collection_exists || db.points.isEmpty) = false := by
      rw [hc, he]
      simp [List.isEmpty_iff, hne]
    rw [VectorDB.get_last_scraped_date, hg]
    simp only [Bool.false_eq_true, if_false]
    have hpts : (if db.indexed_fields.contains "published_date" then db
        else { db with indexed_fields := db.indexed_fields ++ ["published_date"] }).points
        = db.points := by
      split <;> rfl
    obtain ⟨p, hp⟩ := maxByDate_isSome _ hfil
    refine ⟨p.published_date, ?_, ⟨p, maxByDate_mem _ _ hp, rfl⟩, maxByDate_le _ _ hp⟩
    simp only [VectorDB.query_latest_document, hpts, hp, Option.map_some']

/-- Claim C3 witness: on the mixed store the medium watermark is the
larger medium date 7, and a store whose collection does not exist yields
no watermark. -/
theorem C3_witness :
    (VectorDB.get_last_scraped_date dbC3 "medium").1 = some 7 ∧
    (VectorDB.get_last_scraped_date dbAbsent "medium").1 = none := by
  constructor
  · obtain ⟨d, hd, hmax⟩ :=
      (C3_get_last_scraped_date dbC3 "medium").2.2.2.2 rfl rfl (by decide)
    obtain ⟨⟨p, hp, hpd⟩, hall⟩ := hmax
    have h7 : (7 : Int) ≤ d := by
      simpa using hall ⟨2, "medium", 7, none⟩ (by decide)
    have hfil : dbC3.points.filter (fun p => p.source == "medium") =
        [⟨0, "medium", 3, none⟩, ⟨2, "medium", 7, none⟩] := by
      decide
    rw [hfil] at hp
    have hd37 : d = 3 ∨ d = 7 := by
      rcases List.mem_cons.mp hp with rfl | h2
      · left
        simpa using hpd.symm
      rcases List.mem_cons.mp h2 with rfl | h3
      · right
        simpa using hpd.symm
      · cases h3
    have hd7 : d = 7 := by
      rcases hd37 with rfl | rfl
      · omega
      · rfl
    rw [hd, hd7]
  · exact (C3_get_last_scraped_date dbAbsent "medium").2.1 rfl

/-- Claim C4 (amended): `get_content_hash` returns `None` under the
same guards as the watermark query (client unset, collection missing or
empty, no matching point); when matching points exist it returns the
`content_hash` of the matching point that comes first in the backend
default scroll order — the matching point with the least id — which,
ids being random uuids, is not necessarily the most recently inserted
matching point. -/
theorem C4_get_content_hash (db : VectorDB) (source : String) :
    (db.connected = false → db.get_content_hash source = none) ∧
    (db.collection_exists = false → db.get_content_hash source = none) ∧
    (db.points = [] → db.get_content_hash source = none) ∧
    (db.points.filter (fun p => p.source == source) = [] →
      db.get_content_hash source = none) ∧
    (db.connected = true → db.collection_exists = true →
      db.points.filter (fun p => p.source == source) ≠ [] →
      ∃ p, minById (db.points.filter (fun p => p.source == source)) = some p ∧
        db.get_content_hash source = p.content_hash ∧
        p ∈ db.points.filter (fun p2 => p2.source == source) ∧
        ∀ q ∈ db.points.filter (fun p2 => p2.source == source), p.id ≤ q.id) := by
  refine ⟨?_, ?_, ?_, ?_, ?_⟩
  · intro h
    simp [VectorDB.get_content_hash, h]
  · intro h
    simp [VectorDB.get_content_hash, h]
  · intro h
    simp [VectorDB.get_content_hash, h]
  · intro hfil
    rw [VectorDB.get_content_hash]
    by_cases hg : (!db.connected || !db.collection_exists || db.points.isEmpty) = true
    · rw [if_pos hg]
    · rw [if_neg hg, hfil]
      rfl
  · intro hc he hfil
    have hne : db.points ≠ [] := by
      intro h0
      rw [h0] at hfil
      exact hfil rfl
    have hg : (!db.connected || !db.collection_exists || db.points.isEmpty) = false := by
      rw [hc, he]
      simp [List.isEmpty_iff, hne]
    obtain ⟨p, hp⟩ := minById_isSome _ hfil
    refine ⟨p, hp, ?_, minById_mem _ _ hp, minById_le _ _ hp⟩
    rw [VectorDB.get_content_hash, hg]
    simp only [Bool.false_eq_true, if_false, hp]

/-- Claim C4 counterexample: on `dbC4` the most recently inserted resume
point carries hash `"new"`, but `get_content_hash` returns `"old"`, the
hash of the matching point with the least id, so it does not return the
hash of the most recently inserted point. -/
theorem C4_counterexample :
    VectorDB.get_content_hash dbC4 "resume" = some "old" ∧
    (dbC4.points.filter (fun p => p.source == "resume")).getLast? =
      some ⟨1, "resume", 2, some "new"⟩ ∧
    VectorDB.get_content_hash dbC4 "resume" ≠ some "new" := by
  refine ⟨rfl, rfl, by decide⟩

/-- Claim C4 witness: on `dbC4` the amended description applies — the
returned hash is that of the least-id matching point — and a store with
no collection yields `None`. -/
theorem C4_witness :
    (∃ p, minById (dbC4.points.filter (fun p => p.source == "resume")) = some p ∧
      VectorDB.get_content_hash dbC4 "resume" = p.content_hash ∧
      p ∈ dbC4.points.filter (fun p2 => p2.source == "resume") ∧
      ∀ q ∈ dbC4.points.filter (fun p2 => p2.source == "resume"), p.id ≤ q.id) ∧
    VectorDB.get_content_hash dbAbsent "resume" = none := by
  exact ⟨(C4_get_content_hash dbC4 "resume").2.2.2.2 rfl rfl (by decide),
    (C4_get_content_hash dbAbsent "resume").2.1 rfl⟩

/-- Claim C10 (amended): every record `search_similar` returns contains
exactly the keys id, title, content, source, url, published_date and
similarity, in that order, with the similarity being the backend score
of the hit verbatim; the stored payload fields chunk_index and
content_hash never appear in a search result, although the created
point payload always persists chunk_index and persists content_hash
exactly when the document carries one. -/
theorem C10_search_result_keys (hits : List QHit) (res : List Dict) (fid : String)
    (doc : Dict) (pt : QPointStruct) :
    (VectorDatabase.search_similar_results hits = some res →
      List.Forall₂ (fun (hit : QHit) (d : Dict) =>
        d.map Prod.fst =
          ["id", "title", "content", "source", "url", "published_date", "similarity"] ∧
        dictGet d "chunk_index" = none ∧
        dictGet d "content_hash" = none ∧
        dictGet d "similarity" = some hit.score ∧
        dictGet d "id" = some (Val.str hit.id)) hits res) ∧
    (VectorDatabase.create_point_from_document fid doc = some pt →
      dictGet pt.payload "chunk_index" = dictGet doc "chunk_index" ∧
      dictGet pt.payload "content_hash" = dictGet doc "content_hash") := by
  constructor
  · induction hits generalizing res with
    | nil =>
      intro h
      cases h
      exact List.Forall₂.nil
    | cons hit hits ih =>
      intro h
      rcases hfmt : VectorDatabase.format_search_result hit with _ | d <;>
        rcases hrest : VectorDatabase.search_similar_results hits with _ | ds <;>
        rw [VectorDatabase.search_similar_results, hfmt, hrest] at h <;>
        cases h
      refine List.Forall₂.cons ?_ (ih ds hrest)
      clear ih hrest
      rcases h1 : dictGet hit.payload "title" with _ | t <;>
        rcases h2 : dictGet hit.payload "content" with _ | c <;>
        rcases h3 : dictGet hit.payload "source" with _ | so <;>
        rcases h4 : dictGet hit.payload "url" with _ | u <;>
        rcases h5 : dictGet hit.payload "published_date" with _ | pd <;>
        rw [VectorDatabase.format_search_result, h1, h2, h3, h4, h5] at hfmt <;>
        cases hfmt
      exact ⟨rfl, rfl, rfl, rfl, rfl⟩
  · intro h
    rcases h1 : dictGet doc "title" with _ | t <;>
      rcases h2 : dictGet doc "content" with _ | c <;>
      rcases h3 : dictGet doc "source" with _ | so <;>
      rcases h4 : dictGet doc "url" with _ | u <;>
      rcases h5 : dictGet doc "published_date" with _ | pd <;>
      (try rcases pd with s0 | n0 | d0 | xs0 | es0 | _) <;>
      rcases h6 : dictGet doc "chunk_index" with _ | ci <;>
      rcases h7 : dictGet doc "embedding" with _ | emb <;>
      rw [VectorDatabase.create_point_from_document, h1, h2, h3, h4, h5, h6, h7] at h <;>
      cases h
    rcases h8 : dictGet doc "content_hash" with _ | ch <;>
      constructor <;>
      rfl

/-- Claim C10 counterexample: a chunked medium document carries no
content_hash, and the point created from it persists no content_hash
either — so chunk_index and content_hash are not both persisted with
every point. -/
theorem C10_counterexample :
    (VectorDatabase.create_point_from_document "pid" docC10).isSome = true ∧
    (VectorDatabase.create_point_from_document "pid" docC10).map
      (fun pt => dictGet pt.payload "content_hash") = some none := by
  exact ⟨rfl, rfl⟩

/-- Claim C10 witness: formatting the concrete stored hit yields the
seven-key record with the verbatim score and no chunk_index. -/
theorem C10_witness :
    ∃ res, VectorDatabase.search_similar_results [hitC10] = some res ∧
      List.Forall₂ (fun (hit : QHit) (d : Dict) =>
        d.map Prod.fst =
          ["id", "title", "content", "source", "url", "published_date", "similarity"] ∧
        dictGet d "chunk_index" = none ∧
        dictGet d "content_hash" = none ∧
        dictGet d "similarity" = some hit.score ∧
        dictGet d "id" = some (Val.str hit.id)) [hitC10] res := by
  refine ⟨_, rfl, (C10_search_result_keys [hitC10] _ "pid" docC10
    { id := "pid", vector := Val.vlist [], payload := [] }).1 rfl⟩

/-- Claim C1 (amended): for every configuration with
`chunk_size > overlap ≥ 0`, `chunk_text` splits the text into whitespace
words and emits the joined windows of up to `chunk_size` words advancing
by `step = chunk_size - overlap`; empty text yields zero chunks, a
single word yields exactly that one chunk, text shorter than
`chunk_size` words yields exactly one chunk equal to the words of the
text joined by single spaces (the whole text whenever its words are
separated by single spaces with no surrounding whitespace), the first
chunk starts at word 0 and the last chunk is a word suffix ending at
the final word; and the ten-word example chunks as specified. -/
theorem C1_chunk_text_windows (cs ov : Int) (text : String) (hov : 0 ≤ ov) (hlt : ov < cs) :
    TextChunker.chunk_text { chunk_size := cs, overlap := ov } text =
      some ((windows cs.toNat (cs - ov).toNat (pySplit text)).map pyJoin) ∧
    (pySplit text = [] →
      TextChunker.chunk_text { chunk_size := cs, overlap := ov } text = some []) ∧
    (∀ w, pySplit text = [w] →
      TextChunker.chunk_text { chunk_size := cs, overlap := ov } text = some [w]) ∧
    (pySplit text ≠ [] → (pySplit text).length ≤ cs.toNat →
      TextChunker.chunk_text { chunk_size := cs, overlap := ov } text =
        some [pyJoin (pySplit text)]) ∧
    (pySplit text ≠ [] →
      ∃ out, TextChunker.chunk_text { chunk_size := cs, overlap := ov } text = some out ∧
        out.head? = some (pyJoin ((pySplit text).take cs.toNat)) ∧
        ∃ k, k < (pySplit text).length ∧
          out.getLast? = some (pyJoin ((pySplit text).drop k))) ∧
    TextChunker.chunk_text { chunk_size := 5, overlap := 2 }
        "one two three four five six seven eight nine ten" =
      some ["one two three four five", "four five six seven eight",
            "seven eight nine ten"] := by
  have hcs1 : 1 ≤ cs.toNat := by omega
  have hs1 : 1 ≤ (cs - ov).toNat := by omega
  have hs2 : (cs - ov).toNat ≤ cs.toNat := by omega
  have hmain := chunk_text_eq_windows { chunk_size := cs, overlap := ov } hov hlt text
  refine ⟨hmain, ?_, ?_, ?_, ?_, rfl⟩
  · intro h
    rw [hmain, h]
    simp [windows]
  · intro w h
    rw [hmain, h, windows, if_pos (by simp [hcs1])]
    rfl
  · intro hne hle
    obtain ⟨w, ws, hW⟩ := List.exists_cons_of_ne_nil hne
    rw [hmain, hW, windows, if_pos (hW ▸ hle), ← hW]
    rfl
  · intro hne
    refine ⟨_, hmain, ?_, ?_⟩
    · rw [List.head?_map, windows_head cs.toNat ((cs - ov).toNat) _ hne]
      rfl
    · obtain ⟨k, hk, hlast⟩ := windows_getLast cs.toNat ((cs - ov).toNat) hs1 hs2
        (pySplit text).length (pySplit text) (le_refl _) hne
      refine ⟨k, hk, ?_⟩
      rw [List.getLast?_map, hlast]
      rfl

/-- Claim C1 counterexample: the text with a double space between its
two words is shorter than `chunk_size = 5` words and yields exactly one
chunk, but that chunk is the single-space join of its words, not the
whole text — so the chunk produced for short text is not in general
equal to the whole text. -/
theorem C1_counterexample :
    TextChunker.chunk_text { chunk_size := 5, overlap := 2 } "a  b" = some ["a b"] ∧
    (pySplit "a  b").length ≤ 5 ∧
    ("a b" : String) ≠ "a  b" := by
  refine ⟨rfl, by decide, by decide⟩

/-- Claim C1 witness: the valid configuration 5/2 on the single word
text and on the empty text. -/
theorem C1_witness :
    (0 : Int) ≤ 2 ∧ (2 : Int) < 5 ∧
    TextChunker.chunk_text { chunk_size := 5, overlap := 2 } "hello" = some ["hello"] ∧
    TextChunker.chunk_text { chunk_size := 5, overlap := 2 } "" = some [] := by
  refine ⟨by decide, by decide, ?_, ?_⟩
  · exact (C1_chunk_text_windows 5 2 "hello" (by decide) (by decide)).2.2.1 "hello" rfl
  · exact (C1_chunk_text_windows 5 2 "" (by decide) (by decide)).2.1 rfl

/-! Helper lemmas for claims C8 and C9. -/

/-- The per-document chunking: for a valid configuration and a document
with string content, the chunks exist, preserve every field other than
`content` and `chunk_index`, carry `chunk_index` values exactly
`0..N-1` in order, and carry the joined windows as contents in window
order. -/
theorem chunkOneDocument_spec (cs ov : Int) (hov : 0 ≤ ov) (hlt : ov < cs) (doc : Dict)
    (s : String) (hs : dictGet doc "content" = some (Val.str s)) :
    ∃ chunks,
      TextChunker.chunkOneDocument { chunk_size := cs, overlap := ov } doc = some chunks ∧
      (∀ cd ∈ chunks, ∀ key, key ≠ "content" → key ≠ "chunk_index" →
        dictGet cd key = dictGet doc key) ∧
      chunks.map (fun cd => dictGet cd "chunk_index") =
        (List.range chunks.length).map (fun (k : Nat) => some (Val.int (k : Int))) ∧
      chunks.map (fun cd => dictGet cd "content") =
        (windows cs.toNat (cs - ov).toNat (pySplit s)).map
          (fun wnd => some (Val.str (pyJoin wnd))) := by
  have hct := chunk_text_eq_windows { chunk_size := cs, overlap := ov } hov hlt s
  refine ⟨((windows cs.toNat (cs - ov).toNat (pySplit s)).map pyJoin).enum.map
    (fun p => TextChunker.create_chunked_document doc p.snd p.fst), ?_, ?_, ?_, ?_⟩
  · rw [TextChunker.chunkOneDocument, hs]
    dsimp only
    rw [hct]
    rfl
  · intro cd hcd key hk1 hk2
    obtain ⟨p, hp, hpe⟩ := List.mem_map.mp hcd
    rw [← hpe, TextChunker.create_chunked_document,
      dictGet_dictSet_ne _ _ _ _ hk2, dictGet_dictSet_ne _ _ _ _ hk1]
  · rw [List.map_map, List.length_map, List.enum_length]
    have hcg : ∀ p ∈ ((windows cs.toNat (cs - ov).toNat (pySplit s)).map pyJoin).enum,
        ((fun cd => dictGet cd "chunk_index") ∘
          (fun p => TextChunker.create_chunked_document doc p.snd p.fst)) p =
          ((fun (k : Nat) => some (Val.int (k : Int))) ∘ Prod.fst) p := by
      intro p hp
      simp only [Function.comp_apply, TextChunker.create_chunked_document]
      rw [dictGet_dictSet_self]
    have h2 := congrArg (List.map (fun (k : Nat) => some (Val.int (k : Int))))
      (List.enum_map_fst ((windows cs.toNat (cs - ov).toNat (pySplit s)).map pyJoin))
    rw [List.map_map] at h2
    rw [List.map_congr_left hcg, h2]
  · rw [List.map_map]
    have hcg : ∀ p ∈ ((windows cs.toNat (cs - ov).toNat (pySplit s)).map pyJoin).enum,
        ((fun cd => dictGet cd "content") ∘
          (fun p => TextChunker.create_chunked_document doc p.snd p.fst)) p =
          ((fun w => some (Val.str w)) ∘ Prod.snd) p := by
      intro p hp
      simp only [Function.comp_apply, TextChunker.create_chunked_document]
      rw [dictGet_dictSet_ne _ _ _ _ (by decide), dictGet_dictSet_self]
    have h2 := congrArg (List.map (fun w => some (Val.str w)))
      (List.enum_map_snd ((windows cs.toNat (cs - ov).toNat (pySplit s)).map pyJoin))
    rw [List.map_map] at h2
    rw [List.map_congr_left hcg, h2, List.map_map]
    rfl

/-- Method `chunk_documents` equals the flattening of the per-document
chunk lists. -/
theorem chunk_documents_eq_perDoc (c : TextChunker) (docs : List Dict) :
    TextChunker.chunk_documents c docs =
      (TextChunker.chunkPerDocument c docs).map List.flatten := by
  induction docs with
  | nil => rfl
  | cons doc rest ih =>
    rcases h1 : c.chunkOneDocument doc with _ | chunks <;>
      rcases h2 : TextChunker.chunkPerDocument c rest with _ | per <;>
      rw [TextChunker.chunk_documents, TextChunker.chunkPerDocument, ih, h1, h2] <;>
      rfl

/-- Claim C8: for every valid configuration and every list of documents
with string contents, `chunk_documents` succeeds, its output is the
per-document chunk lists flattened in order, and for each parent
document the chunks preserve every other field, carry `chunk_index`
exactly `0..N-1` in window order, and carry the windows of the parent
content in order. -/
theorem C8_chunk_documents (cs ov : Int) (hov : 0 ≤ ov) (hlt : ov < cs) (docs : List Dict)
    (hdocs : ∀ doc ∈ docs, ∃ s, dictGet doc "content" = some (Val.str s)) :
    ∃ perDoc,
      TextChunker.chunkPerDocument { chunk_size := cs, overlap := ov } docs = some perDoc ∧
      TextChunker.chunk_documents { chunk_size := cs, overlap := ov } docs =
        some perDoc.flatten ∧
      List.Forall₂ (fun doc chunks =>
        (∀ cd ∈ chunks, ∀ key, key ≠ "content" → key ≠ "chunk_index" →
          dictGet cd key = dictGet doc key) ∧
        chunks.map (fun cd => dictGet cd "chunk_index") =
          (List.range chunks.length).map (fun (k : Nat) => some (Val.int (k : Int))) ∧
        (∃ s, dictGet doc "content" = some (Val.str s) ∧
          chunks.map (fun cd => dictGet cd "content") =
            (windows cs.toNat (cs - ov).toNat (pySplit s)).map
              (fun wnd => some (Val.str (pyJoin wnd))))) docs perDoc := by
  induction docs with
  | nil => exact ⟨[], rfl, rfl, List.Forall₂.nil⟩
  | cons doc rest ih =>
    obtain ⟨s, hs⟩ := hdocs doc (List.mem_cons_self _ _)
    obtain ⟨chunks, hone, hpres, hidx, hcont⟩ := chunkOneDocument_spec cs ov hov hlt doc s hs
    obtain ⟨per, hper, hflat, hfa⟩ := ih (fun d hd => hdocs d (List.mem_cons_of_mem _ hd))
    refine ⟨chunks :: per, ?_, ?_, List.Forall₂.cons ⟨hpres, hidx, s, hs, hcont⟩ hfa⟩
    · rw [TextChunker.chunkPerDocument, hone, hper]
    · rw [TextChunker.chunk_documents, hone]
      have h2 : TextChunker.chunk_documents { chunk_size := cs, overlap := ov } rest =
          some per.flatten := hflat
      rw [h2]
      rw [List.flatten_cons]

/-- Claim C8 witness: the two test-shaped documents under the 3/1
configuration. -/
theorem C8_witness :
    (0 : Int) ≤ 1 ∧ (1 : Int) < 3 ∧
    (∃ perDoc,
      TextChunker.chunkPerDocument { chunk_size := 3, overlap := 1 } docsC8 = some perDoc ∧
      TextChunker.chunk_documents { chunk_size := 3, overlap := 1 } docsC8 =
        some perDoc.flatten ∧
      List.Forall₂ (fun doc chunks =>
        (∀ cd ∈ chunks, ∀ key, key ≠ "content" → key ≠ "chunk_index" →
          dictGet cd key = dictGet doc key) ∧
        chunks.map (fun cd => dictGet cd "chunk_index") =
          (List.range chunks.length).map (fun (k : Nat) => some (Val.int (k : Int))) ∧
        (∃ s, dictGet doc "content" = some (Val.str s) ∧
          chunks.map (fun cd => dictGet cd "content") =
            (windows (3 : Int).toNat ((3 : Int) - 1).toNat (pySplit s)).map
              (fun wnd => some (Val.str (pyJoin wnd))))) docsC8 perDoc) := by
  refine ⟨by decide, by decide, C8_chunk_documents 3 1 (by decide) (by decide) docsC8 ?_⟩
  intro doc hd
  rcases List.mem_cons.mp hd with rfl | hd2
  · exact ⟨"one two three four", rfl⟩
  rcases List.mem_cons.mp hd2 with rfl | hd3
  · exact ⟨"alpha beta gamma delta", rfl⟩
  · cases hd3

/-- Claim C9: chunks produced by `chunk_documents` are mutually isolated
heap objects — each chunk is a fresh `copy.deepcopy` — so writing any
top-level field through the reference of one chunk leaves every other
chunk (same parent or not) entirely unchanged. -/
theorem C9_chunk_isolation (cs ov : Int) (docs : List Dict) (h0 : Heap)
    (refs : List Nat) (heap : Heap)
    (hrun : TextChunker.chunkDocumentsAlloc { chunk_size := cs, overlap := ov } docs h0 =
      some (refs, heap))
    (i j : Nat) (hi : i < refs.length) (hj : j < refs.length) (hij : i ≠ j)
    (key : String) (v : Val) :
    (heap.write (refs.getD i 0) key v).read (refs.getD j 0) = heap.read (refs.getD j 0) := by
  rw [TextChunker.chunkDocumentsAlloc] at hrun
  rcases hcd : TextChunker.chunk_documents { chunk_size := cs, overlap := ov } docs
    with _ | out <;> rw [hcd] at hrun
  · cases hrun
  · rw [Option.map_some'] at hrun
    have hx : allocChunksFrom h0 out = (refs, heap) := by
      injection hrun
    have hrefs : refs = List.range' h0.cells.length out.length :=
      (congrArg Prod.fst hx).symm.trans (allocChunksFrom_refs out h0)
    subst hrefs
    have hlen : (List.range' h0.cells.length out.length).length = out.length :=
      List.length_range' _ _ _
    exact heap_read_write_ne heap _ _
      (range'_getD_ne h0.cells.length out.length j i (by omega) (by omega) (Ne.symm hij))
      key v

/-- Claim C9 witness: chunking the concrete document into two chunks on
the empty heap and mutating the source field of the first chunk leaves
the second chunk unchanged. -/
theorem C9_witness :
    (allocC9.2.write (allocC9.1.getD 0 0) "source" (Val.str "modified")).read
        (allocC9.1.getD 1 0) =
      allocC9.2.read (allocC9.1.getD 1 0) :=
  C9_chunk_isolation 3 1 docsC9 { cells := [] } allocC9.1 allocC9.2 rfl 0 1
    (by decide) (by decide) (by decide) "source" (Val.str "modified")

end JasonRag